import Mathlib

/-!
Shallow embedding of `src/app/app.py` (Rule 142 — Replace WS_UPLOAD/WS_DOWNLOAD).

Text is modelled as `List Char`.  The two compiled regular expressions of the
source, `STMT_RE = (?is)\bCALL\s+FUNCTION\b[^.]*\.` and
`FN_NAME_RE = (?i)\bCALL\s+FUNCTION\s+(?:'|\"|)\s*(?P<fname>[A-Z0-9_]+)\s*(?:'|\"|)`,
are embedded as deterministic scanners: on these patterns Python regex
backtracking is determinate (`[^.]*.` stops at the first terminator; each
`\s+`/`\s*`/name run is a maximal munch whose failure cannot be repaired by a
shorter run, and the independently optional quote alternations fail exactly
when the greedy reading fails), so the scanners below compute the same match
set as `re.finditer`/`re.search`.  Python `str.rfind`/`str.find` with a
single-character needle become last/first newline index scans, `str.replace`
a character-by-character rewrite, and the FastAPI endpoint loop a recursion.
Character classes are taken at their ASCII meaning (all identifiers the rule
can flag are ASCII).
-/

namespace Rule142

abbrev Text := List Char

/-- The single-quote character (ASCII 39). -/
def sq : Char := Char.ofNat 39

/-- The double-quote character (ASCII 34). -/
def dq : Char := Char.ofNat 34

/-- Python regex `\w` over ASCII: `[A-Za-z0-9_]`. -/
def isWordChar (c : Char) : Bool := c.isAlphanum || c = '_'

/-- Python regex `\s` over ASCII: space, tab, newline, CR, VT, FF. -/
def isSpaceChar (c : Char) : Bool :=
  c = ' ' || c = '\t' || c = '\n' || c = '\r' || c = Char.ofNat 11 || c = Char.ofNat 12

/-- ASCII upper-casing of one character (Python `str.upper` on ASCII data). -/
def toUpperChar (c : Char) : Char :=
  if 'a' ≤ c ∧ c ≤ 'z' then Char.ofNat (c.toNat - 32) else c

/-- Case-insensitive match of one pattern character `p` (given in upper case)
against an input character `c`, as regex flag `(?i)` does on ASCII. -/
def matchCIChar (p c : Char) : Bool := toUpperChar c = p

/-- Strip a literal pattern (given in upper case) case-insensitively from the
front of the input, returning the rest on success. -/
def stripCI : Text → Text → Option Text
  | [], s => some s
  | _ :: _, [] => none
  | p :: ps, c :: cs => if matchCIChar p c then stripCI ps cs else none

/-- Maximal run of regex whitespace at the front: returns its length and the
rest of the input. -/
def takeSpaces : Text → Nat × Text
  | [] => (0, [])
  | c :: cs =>
    if isSpaceChar c then ((takeSpaces cs).1 + 1, (takeSpaces cs).2)
    else (0, c :: cs)

/-- `[^.]*\.`: number of characters consumed up to and including the first
terminator `.`; `none` when no terminator remains. -/
def scanToDot : Text → Option Nat
  | [] => none
  | c :: cs => if c = '.' then some 1 else (scanToDot cs).map (· + 1)

/-- Whether the head of the input is a word character (for `\b` checks). -/
def headIsWord : Text → Bool
  | [] => false
  | c :: _ => isWordChar c

/-- Attempt of `STMT_RE` at the current position.  `prevW` says whether the
character before this position is a word character (the left `\b` context);
on success returns the length of the match. -/
def matchStmtAt (prevW : Bool) (s : Text) : Option Nat :=
  if prevW then none else
  match stripCI "CALL".toList s with
  | none => none
  | some r1 =>
    if (takeSpaces r1).1 = 0 then none else
    match stripCI "FUNCTION".toList (takeSpaces r1).2 with
    | none => none
    | some r3 =>
      if headIsWord r3 then none else
      (scanToDot r3).map (fun n2 => 4 + (takeSpaces r1).1 + 8 + n2)

/-- `STMT_RE.finditer`: left-to-right non-overlapping scan.  Returns the list
of `(start offset, match length)` pairs in textual order.  `fuel` is an upper
bound on the number of scan steps (the input length suffices, since every
step consumes at least one character). -/
def findStmtsAux : Nat → Bool → Nat → Text → List (Nat × Nat)
  | 0, _, _, _ => []
  | _ + 1, _, _, [] => []
  | fuel + 1, prevW, pos, c :: cs =>
    match matchStmtAt prevW (c :: cs) with
    | some len => (pos, len) :: findStmtsAux fuel false (pos + len) ((c :: cs).drop len)
    | none => findStmtsAux fuel (isWordChar c) (pos + 1) cs

def findStmts (s : Text) : List (Nat × Nat) := findStmtsAux s.length false 0 s

/-- Attempt of `FN_NAME_RE` at the current position of a statement string:
`CALL` `\s+` `FUNCTION` `\s+`, one optional quote character (single or
double, independently of any closing one), `\s*`, then a maximal nonempty
run of word characters — the captured `fname`. -/
def fnNameAt (prevW : Bool) (s : Text) : Option Text :=
  if prevW then none else
  match stripCI "CALL".toList s with
  | none => none
  | some r1 =>
    let sp1 := takeSpaces r1
    if sp1.1 = 0 then none else
    match stripCI "FUNCTION".toList sp1.2 with
    | none => none
    | some r3 =>
      let sp2 := takeSpaces r3
      if sp2.1 = 0 then none else
      let r5 := match sp2.2 with
        | c :: cs => if c = sq || c = dq then cs else c :: cs
        | [] => []
      let r6 := (takeSpaces r5).2
      let nm := r6.takeWhile isWordChar
      if nm = [] then none else some nm

/-- `FN_NAME_RE.search`: leftmost match, scanning every start position. -/
def fnNameSearchAux : Nat → Bool → Text → Option Text
  | 0, _, _ => none
  | _ + 1, _, [] => none
  | fuel + 1, prevW, c :: cs =>
    match fnNameAt prevW (c :: cs) with
    | some nm => some nm
    | none => fnNameSearchAux fuel (isWordChar c) cs

def fnNameSearch (s : Text) : Option Text := fnNameSearchAux s.length false s

/-- Obsolete, non-Unicode FMs to flag per Rule 142. -/
def OBSOLETE_FMS : List Text :=
  ["WS_UPLOAD".toList, "WS_DOWNLOAD".toList, "UPLOAD".toList, "DOWNLOAD".toList]

/-- Index of the last newline in a text, if any. -/
def lastNLIdx : Text → Option Nat
  | [] => none
  | c :: cs =>
    match lastNLIdx cs with
    | some k => some (k + 1)
    | none => if c = '\n' then some 0 else none

/-- Index of the first newline in a text, if any. -/
def firstNLIdx : Text → Option Nat
  | [] => none
  | c :: cs => if c = '\n' then some 0 else (firstNLIdx cs).map (· + 1)

/-- `text.rfind("\n", 0, s)` of the source, with Python's `-1` sentinel
rendered as `none`: the largest newline index strictly below `s`. -/
def pyRfindNL (text : Text) (s : Nat) : Option Nat := lastNLIdx (text.take s)

/-- `text.find("\n", e)` of the source, with `-1` rendered as `none`: the
smallest newline index at or after `e`. -/
def pyFindNLFrom (text : Text) (e : Nat) : Option Nat :=
  (firstNLIdx (text.drop e)).map (e + ·)

/-- `get_line_snippet` of the source: the full line(s) of `text` spanning the
match span `[s, e)`. -/
def get_line_snippet (text : Text) (s e : Nat) : Text :=
  (text.take
    (match pyFindNLFrom text e with
     | none => text.length
     | some j => j)).drop
    (match pyRfindNL text s with
     | none => 0
     | some i => i + 1)

/-- `snippet_line.replace("\n", "\\n")` of the source. -/
def escapeNL : Text → Text
  | [] => []
  | c :: cs => if c = '\n' then '\\' :: 'n' :: escapeNL cs else c :: escapeNL cs

/-- Python `needle in haystack` substring containment. -/
def containsSub (needle : Text) : Text → Bool
  | [] => needle.isEmpty
  | c :: cs => needle.isPrefixOf (c :: cs) || containsSub needle cs

/-- The upload suggestion template of the source (a static constant). -/
def SUG_UPLOAD : Text :=
  "Replace with Unicode-compliant APIs:\n  CALL FUNCTION ".toList ++ [sq] ++
  "GUI_UPLOAD".toList ++ [sq] ++
  "\n    EXPORTING\n      filename = <path>\n      filetype = ".toList ++ [sq] ++
  "ASC".toList ++ [sq] ++
  "\n      encoding = ".toList ++ [sq] ++ "UTF-8".toList ++ [sq] ++
  "\n    TABLES\n      data_tab = <itab>.\nOr use CL_GUI_FRONTEND_SERVICES=>GUI_UPLOAD for OO style.".toList

/-- The download suggestion template of the source (a static constant). -/
def SUG_DOWNLOAD : Text :=
  "Replace with Unicode-compliant APIs:\n  CALL FUNCTION ".toList ++ [sq] ++
  "GUI_DOWNLOAD".toList ++ [sq] ++
  "\n    EXPORTING\n      filename = <path>\n      filetype = ".toList ++ [sq] ++
  "ASC".toList ++ [sq] ++
  "\n      encoding = ".toList ++ [sq] ++ "UTF-8".toList ++ [sq] ++
  "\n    TABLES\n      data_tab = <itab>.\nOr use CL_GUI_FRONTEND_SERVICES=>GUI_DOWNLOAD for OO style.".toList

/-- The message f-string of the source. -/
def mkMessage (fm : Text) : Text :=
  "Obsolete function module ".toList ++ [sq] ++ fm ++ [sq] ++
  " detected (non-Unicode).".toList

/-- The `Finding` pydantic model; every field is populated at the single
construction site in `scan_unit`, except `blockname` which copies the
optional `unit.name`. -/
structure Finding where
  prog_name : Text
  incl_name : Text
  types : Text
  blockname : Option Text
  starting_line : Int
  ending_line : Int
  issues_type : Text
  severity : Text
  message : Text
  suggestion : Text
  snippet : Text
deriving DecidableEq, Repr

/-- The `Unit` pydantic model of the source (named `CodeUnit` here since
`Unit` is taken in Lean).  Optional fields are `Option`s; their pydantic
defaults are the `some` of the Python defaults. -/
structure CodeUnit where
  pgm_name : Text
  inc_name : Text
  type : Text
  name : Option Text := some []
  start_line : Option Int := some 0
  end_line : Option Int := some 0
  code : Option Text := some []
  findings : Option (List Finding) := none
deriving DecidableEq, Repr

/-- The finding built in the body of `scan_unit` for a statement matched at
offset `p` with length `l` whose extracted upper-cased name is `fm`. -/
def mkFinding (u : CodeUnit) (src : Text) (base_start : Int) (p l : Nat) (fm : Text) :
    Finding :=
  let suggestion := if containsSub "UPLOAD".toList fm then SUG_UPLOAD else SUG_DOWNLOAD
  let line_in_block : Nat := (src.take p).count '\n' + 1
  let snippet_line := get_line_snippet src p (p + l)
  let snippet_line_count : Nat := snippet_line.count '\n' + 1
  { prog_name := u.pgm_name
    incl_name := u.inc_name
    types := u.type
    blockname := u.name
    starting_line := base_start + line_in_block
    ending_line := base_start + line_in_block + snippet_line_count
    issues_type := "ObsoleteUploadDownload".toList
    severity := "error".toList
    message := mkMessage fm
    suggestion := suggestion
    snippet := escapeNL snippet_line }

/-- One iteration of the `for m in STMT_RE.finditer(src)` loop body: `none`
when the statement contributes no finding. -/
def scanMatch (u : CodeUnit) (src : Text) (base_start : Int) (pl : Nat × Nat) :
    Option Finding :=
  let stmt := (src.drop pl.1).take pl.2
  match fnNameSearch stmt with
  | none => none
  | some raw =>
    let fm := raw.map toUpperChar
    if fm ∈ OBSOLETE_FMS then some (mkFinding u src base_start pl.1 pl.2 fm) else none

/-- `scan_unit` of the source: scan one unit and return a fresh copy carrying
the findings list. -/
def scan_unit (u : CodeUnit) : CodeUnit :=
  let src := u.code.getD []
  let base_start := u.start_line.getD 0
  let findings := (findStmts src).filterMap (scanMatch u src base_start)
  { u with findings := some findings }

/-- Python truthiness of the `findings` field (`if res.findings:`). -/
def findingsTruthy : Option (List Finding) → Bool
  | some (_ :: _) => true
  | _ => false

/-- The `/remediate-array` endpoint loop (`scan_rule_array`): keep, in order,
the scanned units whose findings list is truthy. -/
def scan_rule_array : List CodeUnit → List CodeUnit
  | [] => []
  | u :: rest =>
    let res := scan_unit u
    if findingsTruthy res.findings then res :: scan_rule_array rest
    else scan_rule_array rest

/-! ### Specification-side definitions and concrete scenario data -/

/-- `Bool` test for "not a newline" (used by the spec-side snippet span). -/
def notNL (c : Char) : Bool := if c = '\n' then false else true

/-- The snippet span as the spec words it: the text from the character after
the nearest newline preceding the span start (or text start) to the nearest
newline following the span end (or text end).  Stated independently of the
`rfind`/`find` scans of the source so that agreement with
`get_line_snippet` is a genuine theorem. -/
def lineOfSpan (text : Text) (s e : Nat) : Text :=
  (text.take (e + ((text.drop e).takeWhile notNL).length)).drop
    (s - (((text.take s).reverse.takeWhile notNL)).length)

/-- The findings of a unit tagged with the text offset of the statement each
one came from (used to state order preservation). -/
def taggedFindings (u : CodeUnit) : List (Nat × Finding) :=
  (findStmts (u.code.getD [])).filterMap
    (fun pl =>
      (scanMatch u (u.code.getD []) (u.start_line.getD 0) pl).map (fun f => (pl.1, f)))

/-- ASCII lower-casing of one character. -/
def toLowerChar (c : Char) : Char :=
  if 'A' ≤ c ∧ c ≤ 'Z' then Char.ofNat (c.toNat + 32) else c

/-- Optionally lower-case a routine name (to exercise case-insensitivity). -/
def caseApply (low : Bool) (t : Text) : Text := if low then t.map toLowerChar else t

/-- Wrap a routine name in no quotes, single quotes, or double quotes. -/
def quoteWrap (q : Fin 3) (t : Text) : Text :=
  if q = 0 then t else if q = 1 then [sq] ++ t ++ [sq] else [dq] ++ t ++ [dq]

/-- A placeholder finding (for `headD`). -/
def findingDefault : Finding :=
  { prog_name := [], incl_name := [], types := [], blockname := none,
    starting_line := 0, ending_line := 0, issues_type := [], severity := [],
    message := [], suggestion := [], snippet := [] }

/-- A unit with the given code and start line and fixed identity fields. -/
def demoUnit (sl : Int) (t : Text) : CodeUnit :=
  { pgm_name := "ZPROG".toList, inc_name := "ZINC".toList, type := "REPORT".toList,
    name := some "BLK".toList, start_line := some sl, end_line := some 0,
    code := some t }

/-- The first finding of a scanned unit. -/
def headFinding (u : CodeUnit) : Finding :=
  ((scan_unit u).findings.getD []).headD findingDefault

/-- C1 scenario code: `CALL FUNCTION 'WS_UPLOAD'\n  EXPORTING x = y.`. -/
def c1code : Text :=
  "CALL FUNCTION ".toList ++ [sq] ++ "WS_UPLOAD".toList ++ [sq] ++
  "\n  EXPORTING x = y.".toList

def c1unit : CodeUnit := demoUnit 0 c1code

/-- C2 scenario code: the offending statement begins on the unit's 3rd line. -/
def c2code : Text :=
  "WRITE x.\nWRITE y.\nCALL FUNCTION ".toList ++ [sq] ++ "WS_UPLOAD".toList ++
  [sq] ++ ".".toList

def c2unit : CodeUnit := demoUnit 100 c2code

/-- C3 scenario code: one call statement of the given name, quote style, and
case. -/
def c3code (q : Fin 3) (low : Bool) (fm : Text) : Text :=
  "CALL FUNCTION ".toList ++ quoteWrap q (caseApply low fm) ++ ".".toList

def c3unit (q : Fin 3) (low : Bool) (fm : Text) : CodeUnit :=
  demoUnit 0 (c3code q low fm)

/-- C3 scenario code with the same statement occurring twice. -/
def c3unitTwice (q : Fin 3) (low : Bool) (fm : Text) : CodeUnit :=
  demoUnit 0 (c3code q low fm ++ "\n".toList ++ c3code q low fm)

/-- A unit scan-one flags (for batch scenarios). -/
def c4flagged : CodeUnit :=
  demoUnit 0 ("CALL FUNCTION ".toList ++ [sq] ++ "DOWNLOAD".toList ++ [sq] ++ ".".toList)

/-- A unit scan-one does not flag (for batch scenarios). -/
def c4clean : CodeUnit :=
  demoUnit 0 ("CALL FUNCTION ".toList ++ [sq] ++ "GUI_UPLOAD".toList ++ [sq] ++ ".".toList)

/-- C6 scenario: empty code. -/
def c6empty : CodeUnit := demoUnit 0 []

/-- C6 scenario: code with no call statement at all. -/
def c6noCall : CodeUnit := demoUnit 0 "WRITE hello.\nMOVE a TO b.".toList

/-- C6 scenario: a call statement whose routine is not on the denylist. -/
def c6nonObsolete : CodeUnit := c4clean

/-- C6 scenario: the invocation keyword is never followed by a terminator. -/
def c6unterminated : CodeUnit :=
  demoUnit 0 ("CALL FUNCTION ".toList ++ [sq] ++ "WS_UPLOAD".toList ++ [sq] ++
    " EXPORTING x = y".toList)

/-- C10 scenario: an opening single quote with no closing quote. -/
def c10unclosed : CodeUnit :=
  demoUnit 0 ("CALL FUNCTION ".toList ++ [sq] ++ "WS_UPLOAD EXPORTING x = y.".toList)

/-- C10 scenario: a single quote paired with a double quote. -/
def c10mismatched : CodeUnit :=
  demoUnit 0 ("CALL FUNCTION ".toList ++ [sq] ++ "WS_DOWNLOAD".toList ++ [dq] ++
    " x.".toList)

/-- C10 scenario: a closing quote only. -/
def c10closingOnly : CodeUnit :=
  demoUnit 0 ("CALL FUNCTION WS_UPLOAD".toList ++ [sq] ++ " x.".toList)

/-! ### Supporting lemmas -/

theorem stripCI_length {p s r : Text} (h : stripCI p s = some r) :
    s.length = p.length + r.length := by
  induction p generalizing s with
  | nil =>
    simp only [stripCI, Option.some.injEq] at h
    subst h
    simp
  | cons a ps ih =>
    cases s with
    | nil => simp [stripCI] at h
    | cons c cs =>
      simp only [stripCI] at h
      split at h
      · have := ih h
        simp only [List.length_cons]
        omega
      · simp at h

theorem takeSpaces_length (s : Text) :
    s.length = (takeSpaces s).1 + (takeSpaces s).2.length := by
  induction s with
  | nil => simp [takeSpaces]
  | cons c cs ih =>
    simp only [takeSpaces]
    split
    · show cs.length + 1 = (takeSpaces cs).1 + 1 + (takeSpaces cs).2.length
      omega
    · simp

theorem scanToDot_bounds {s : Text} {n : Nat} (h : scanToDot s = some n) :
    1 ≤ n ∧ n ≤ s.length := by
  induction s generalizing n with
  | nil => simp [scanToDot] at h
  | cons c cs ih =>
    simp only [scanToDot] at h
    split at h
    · simp only [Option.some.injEq] at h
      simp only [List.length_cons]
      omega
    · cases hm : scanToDot cs with
      | none => rw [hm] at h; simp at h
      | some m =>
        rw [hm] at h
        simp only [Option.map_some', Option.some.injEq] at h
        have := ih hm
        simp only [List.length_cons]
        omega

theorem matchStmtAt_bounds {w : Bool} {s : Text} {len : Nat}
    (h : matchStmtAt w s = some len) : 1 ≤ len ∧ len ≤ s.length := by
  unfold matchStmtAt at h
  split at h
  · simp at h
  split at h
  · simp at h
  rename_i r1 h1
  split at h
  · simp at h
  split at h
  · simp at h
  rename_i r3 h2
  split at h
  · simp at h
  cases h3 : scanToDot r3 with
  | none => rw [h3] at h; simp at h
  | some n2 =>
    rw [h3] at h
    simp only [Option.map_some', Option.some.injEq] at h
    have e1 := stripCI_length h1
    have e2 := takeSpaces_length r1
    have e3 := stripCI_length h2
    have e4 := scanToDot_bounds h3
    have l4 : ("CALL".toList).length = 4 := by decide
    have l8 : ("FUNCTION".toList).length = 8 := by decide
    omega

theorem findStmtsAux_mem {fuel : Nat} {w : Bool} {pos : Nat} {s : Text}
    {q : Nat × Nat} (h : q ∈ findStmtsAux fuel w pos s) :
    pos ≤ q.1 ∧ q.1 + q.2 ≤ pos + s.length := by
  induction fuel generalizing w pos s with
  | zero => simp [findStmtsAux] at h
  | succ fuel ih =>
    cases s with
    | nil => simp [findStmtsAux] at h
    | cons c cs =>
      simp only [findStmtsAux] at h
      cases hm : matchStmtAt w (c :: cs) with
      | some len =>
        rw [hm] at h
        have hb := matchStmtAt_bounds hm
        simp only [List.length_cons] at hb
        rcases List.mem_cons.mp h with h | h
        · subst h
          simp only [List.length_cons]
          omega
        · have h2 := ih h
          have hd : ((c :: cs).drop len).length = (c :: cs).length - len := by
            rw [List.length_drop]
          simp only [List.length_cons] at h2 hd ⊢
          omega
      | none =>
        rw [hm] at h
        have h2 := ih h
        simp only [List.length_cons]
        omega

theorem findStmts_bounds {s : Text} {q : Nat × Nat} (h : q ∈ findStmts s) :
    q.1 + q.2 ≤ s.length := by
  have h2 : q ∈ findStmtsAux s.length false 0 s := h
  have := findStmtsAux_mem h2
  omega

theorem findStmtsAux_pairwise (fuel : Nat) (w : Bool) (pos : Nat) (s : Text) :
    (findStmtsAux fuel w pos s).Pairwise (fun a b => a.1 < b.1) := by
  induction fuel generalizing w pos s with
  | zero => simp [findStmtsAux]
  | succ fuel ih =>
    cases s with
    | nil => simp [findStmtsAux]
    | cons c cs =>
      simp only [findStmtsAux]
      cases hm : matchStmtAt w (c :: cs) with
      | some len =>
        refine List.Pairwise.cons ?_ (ih ..)
        intro q hq
        have hmem := findStmtsAux_mem hq
        have hb := matchStmtAt_bounds hm
        omega
      | none => exact ih ..

theorem findStmts_pairwise (s : Text) :
    (findStmts s).Pairwise (fun a b => a.1 < b.1) :=
  findStmtsAux_pairwise ..

theorem pairwise_filterMap_of {α β : Type} {R : α → α → Prop} {S : β → β → Prop}
    (g : α → Option β)
    (hg : ∀ a b x y, g a = some x → g b = some y → R a b → S x y) :
    ∀ {l : List α}, l.Pairwise R → (l.filterMap g).Pairwise S := by
  intro l hl
  induction l with
  | nil => simp
  | cons a l ih =>
    rw [List.pairwise_cons] at hl
    cases hga : g a with
    | none => simpa [List.filterMap_cons, hga] using ih hl.2
    | some x =>
      simp only [List.filterMap_cons, hga]
      refine List.Pairwise.cons ?_ (ih hl.2)
      intro y hy
      obtain ⟨b, hb, hgb⟩ := List.mem_filterMap.mp hy
      exact hg a b x y hga hgb (hl.1 b hb)

theorem takeWhile_len_of_firstNLIdx_none {L : Text} (h : firstNLIdx L = none) :
    (L.takeWhile notNL).length = L.length := by
  induction L with
  | nil => simp
  | cons c cs ih =>
    simp only [firstNLIdx] at h
    split at h
    · simp at h
    · cases hm : firstNLIdx cs with
      | none =>
        rename_i hc
        simp only [List.takeWhile_cons, notNL, if_neg hc, if_pos trivial,
          List.length_cons]
        rw [ih hm]
      | some m => rw [hm] at h; simp at h

theorem takeWhile_len_of_firstNLIdx_some {L : Text} {k : Nat}
    (h : firstNLIdx L = some k) : (L.takeWhile notNL).length = k := by
  induction L generalizing k with
  | nil => simp [firstNLIdx] at h
  | cons c cs ih =>
    simp only [firstNLIdx] at h
    split at h
    · rename_i hc
      simp only [Option.some.injEq] at h
      simp [List.takeWhile_cons, notNL, hc, ← h]
    · cases hm : firstNLIdx cs with
      | none => rw [hm] at h; simp at h
      | some m =>
        rw [hm] at h
        simp only [Option.map_some', Option.some.injEq] at h
        rename_i hc
        simp only [List.takeWhile_cons, notNL, if_neg hc, if_pos trivial,
          List.length_cons]
        rw [ih hm]
        omega

theorem lastNLIdx_append (M : Text) (c : Char) :
    lastNLIdx (M ++ [c]) = if c = '\n' then some M.length else lastNLIdx M := by
  induction M with
  | nil =>
    by_cases hc : c = '\n' <;> simp [lastNLIdx, hc]
  | cons a M ih =>
    show (match lastNLIdx (M ++ [c]) with
          | some k => some (k + 1)
          | none => if a = '\n' then some 0 else none) = _
    rw [ih]
    by_cases hc : c = '\n'
    · rw [if_pos hc, if_pos hc]
      rfl
    · rw [if_neg hc, if_neg hc]
      rfl

theorem rev_takeWhile_of_lastNLIdx_none {L : Text} (h : lastNLIdx L = none) :
    (L.reverse.takeWhile notNL).length = L.length := by
  induction L using List.reverseRecOn with
  | nil => simp
  | append_singleton M c ih =>
    rw [lastNLIdx_append] at h
    split at h
    · simp at h
    · rename_i hc
      simp only [List.reverse_append, List.reverse_cons, List.reverse_nil,
        List.nil_append, List.singleton_append, List.takeWhile_cons, notNL,
        if_neg hc, if_pos trivial, List.length_cons, List.length_append,
        List.length_singleton, List.length_nil]
      rw [ih h]

theorem rev_takeWhile_of_lastNLIdx_some {L : Text} {i : Nat}
    (h : lastNLIdx L = some i) :
    i + 1 ≤ L.length ∧ (L.reverse.takeWhile notNL).length = L.length - (i + 1) := by
  induction L using List.reverseRecOn generalizing i with
  | nil => simp [lastNLIdx] at h
  | append_singleton M c ih =>
    rw [lastNLIdx_append] at h
    split at h
    · rename_i hc
      simp only [Option.some.injEq] at h
      subst h
      subst hc
      constructor
      · simp
      · simp [List.reverse_append, List.takeWhile_cons, notNL]
    · rename_i hc
      obtain ⟨hi, ht⟩ := ih h
      constructor
      · simp only [List.length_append, List.length_singleton]
        omega
      · simp only [List.reverse_append, List.reverse_cons, List.reverse_nil,
          List.nil_append, List.singleton_append, List.takeWhile_cons, notNL,
          if_neg hc, if_pos trivial, List.length_cons, List.length_append,
          List.length_singleton, List.length_nil]
        omega

theorem get_line_snippet_eq_lineOfSpan {text : Text} {s e : Nat}
    (hs : s ≤ text.length) (he : e ≤ text.length) :
    get_line_snippet text s e = lineOfSpan text s e := by
  have hts : (text.take s).length = s := by
    rw [List.length_take]
    omega
  have hde : (text.drop e).length = text.length - e := List.length_drop e text
  have hB :
      (match pyRfindNL text s with
       | none => 0
       | some i => i + 1) =
        s - (((text.take s).reverse.takeWhile notNL)).length := by
    unfold pyRfindNL
    cases hL : lastNLIdx (text.take s) with
    | none =>
      rw [rev_takeWhile_of_lastNLIdx_none hL, hts]
      show 0 = s - s
      omega
    | some i =>
      obtain ⟨hi, ht⟩ := rev_takeWhile_of_lastNLIdx_some hL
      rw [ht, hts]
      rw [hts] at hi
      show i + 1 = s - (s - (i + 1))
      omega
  have hA :
      (match pyFindNLFrom text e with
       | none => text.length
       | some j => j) = e + ((text.drop e).takeWhile notNL).length := by
    unfold pyFindNLFrom
    cases hF : firstNLIdx (text.drop e) with
    | none =>
      rw [takeWhile_len_of_firstNLIdx_none hF, hde]
      show text.length = e + (text.length - e)
      omega
    | some k =>
      rw [takeWhile_len_of_firstNLIdx_some hF]
      show e + k = e + k
      rfl
  unfold get_line_snippet lineOfSpan
  rw [hA, hB]

/-- `scan_unit` unfolded to its findings list. -/
theorem scan_unit_findings (u : CodeUnit) :
    (scan_unit u).findings =
      some ((findStmts (u.code.getD [])).filterMap
        (scanMatch u (u.code.getD []) (u.start_line.getD 0))) := rfl

/-- Decomposition of membership in the findings of a scanned unit. -/
theorem mem_scan_unit_findings {u : CodeUnit} {f : Finding}
    (h : f ∈ (scan_unit u).findings.getD []) :
    ∃ p l raw, (p, l) ∈ findStmts (u.code.getD []) ∧
      fnNameSearch (((u.code.getD []).drop p).take l) = some raw ∧
      raw.map toUpperChar ∈ OBSOLETE_FMS ∧
      f = mkFinding u (u.code.getD []) (u.start_line.getD 0) p l
            (raw.map toUpperChar) := by
  rw [scan_unit_findings, Option.getD_some] at h
  obtain ⟨pl, hmem, heq⟩ := List.mem_filterMap.mp h
  simp only [scanMatch] at heq
  split at heq
  · simp at heq
  rename_i raw hn
  split at heq
  · rename_i hin
    simp only [Option.some.injEq] at heq
    exact ⟨pl.1, pl.2, raw, hmem, hn, hin, heq.symm⟩
  · simp at heq

/-! ### Claim theorems -/

set_option maxRecDepth 100000

/-- Claim C1, counterexample: on the unit whose code is
`CALL FUNCTION 'WS_UPLOAD'` newline `  EXPORTING x = y.` with start_line 0,
the single finding has ending_line 3, not 2 as the claim states (the matched
statement spans both physical lines, so the snippet holds one newline and
`snippet_line_count` is 2). -/
theorem c1_scenario_counterexample :
    ((scan_unit c1unit).findings.getD []).map Finding.ending_line = [3] ∧
    ¬ ((scan_unit c1unit).findings.getD []).map Finding.ending_line = [2] := by
  decide

/-- Claim C1, amended: for the unit whose code is `CALL FUNCTION 'WS_UPLOAD'`
newline `  EXPORTING x = y.` with start_line 0, scan-one produces exactly one
finding whose message mentions WS_UPLOAD, whose suggestion equals the upload
template, and whose starting_line = 1 and ending_line = 3. -/
theorem c1_scenario_amended :
    ((scan_unit c1unit).findings.getD []).length = 1 ∧
    ((scan_unit c1unit).findings.getD []).all (fun f =>
      containsSub "WS_UPLOAD".toList f.message &&
      decide (f.suggestion = SUG_UPLOAD) &&
      decide (f.starting_line = 1) && decide (f.ending_line = 3)) = true := by
  decide

/-- Claim C2: every finding has starting_line = unit.start_line + (newlines
in the unit text strictly before the statement start) + 1, and ending_line =
that same quantity + (newlines in the snippet line) + 1; in particular a
unit with start_line 100 whose offending statement begins on its 3rd line
gets starting_line 103. -/
theorem c2_line_arithmetic :
    (∀ (u : CodeUnit) (f : Finding), f ∈ (scan_unit u).findings.getD [] →
      ∃ p l, (p, l) ∈ findStmts (u.code.getD []) ∧
        f.starting_line =
          u.start_line.getD 0 + (((u.code.getD []).take p).count '\n' : Int) + 1 ∧
        f.ending_line =
          u.start_line.getD 0 + (((u.code.getD []).take p).count '\n' : Int) + 1 +
            ((get_line_snippet (u.code.getD []) p (p + l)).count '\n' : Int) + 1) ∧
    ((scan_unit c2unit).findings.getD []).map Finding.starting_line = [103] := by
  constructor
  · intro u f h
    obtain ⟨p, l, raw, h1, h2, h3, rfl⟩ := mem_scan_unit_findings h
    refine ⟨p, l, h1, ?_, ?_⟩
    · simp only [mkFinding]
      push_cast
      ring
    · simp only [mkFinding]
      push_cast
      ring
  · decide

/-- Witness for C2 at a concrete unit (start_line 100, statement on the 3rd
line). -/
theorem c2_line_arithmetic_witness :
    ∃ p l, (p, l) ∈ findStmts (c2unit.code.getD []) ∧
      (headFinding c2unit).starting_line =
        c2unit.start_line.getD 0 +
          (((c2unit.code.getD []).take p).count '\n' : Int) + 1 ∧
      (headFinding c2unit).ending_line =
        c2unit.start_line.getD 0 +
          (((c2unit.code.getD []).take p).count '\n' : Int) + 1 +
          ((get_line_snippet (c2unit.code.getD []) p (p + l)).count '\n' : Int) + 1 :=
  c2_line_arithmetic.1 c2unit (headFinding c2unit) (by decide)

/-- Claim C3: each of the four denylisted routine names, in unquoted,
single-quoted, or double-quoted syntax, in upper or lower case, is detected
with exactly one finding per occurrence (one finding for one occurrence, two
findings for two occurrences), and the finding names the routine. -/
theorem c3_denylist_completeness :
    ∀ fm ∈ OBSOLETE_FMS, ∀ (q : Fin 3) (low : Bool),
      ((scan_unit (c3unit q low fm)).findings.getD []).length = 1 ∧
      ((scan_unit (c3unit q low fm)).findings.getD []).all
        (fun f => containsSub fm f.message) = true ∧
      ((scan_unit (c3unitTwice q low fm)).findings.getD []).length = 2 := by
  decide

/-- Witness for C3 at WS_UPLOAD, single quotes, lower case. -/
theorem c3_denylist_completeness_witness :
    ((scan_unit (c3unit 1 true "WS_UPLOAD".toList)).findings.getD []).length = 1 ∧
    ((scan_unit (c3unit 1 true "WS_UPLOAD".toList)).findings.getD []).all
      (fun f => containsSub "WS_UPLOAD".toList f.message) = true ∧
    ((scan_unit (c3unitTwice 1 true "WS_UPLOAD".toList)).findings.getD []).length = 2 :=
  c3_denylist_completeness "WS_UPLOAD".toList (by decide) 1 true

/-- Claim C4: scan-batch returns exactly the scanned units with at least one
finding, in original relative order (the filter of the mapped scan), and a
unit with zero findings never appears in the batch output. -/
theorem c4_batch_filtering :
    ∀ us : List CodeUnit,
      scan_rule_array us =
        (us.map scan_unit).filter (fun r => decide (r.findings.getD [] ≠ [])) ∧
      ∀ r ∈ scan_rule_array us, r.findings.getD [] ≠ [] := by
  have hbridge : ∀ u : CodeUnit,
      findingsTruthy (scan_unit u).findings =
        decide ((scan_unit u).findings.getD [] ≠ []) := by
    intro u
    rw [scan_unit_findings]
    cases (findStmts (u.code.getD [])).filterMap
        (scanMatch u (u.code.getD []) (u.start_line.getD 0)) with
    | nil => rfl
    | cons a l => simp [findingsTruthy]
  have hfilter : ∀ us : List CodeUnit,
      scan_rule_array us =
        (us.map scan_unit).filter (fun r => decide (r.findings.getD [] ≠ [])) := by
    intro us
    induction us with
    | nil => rfl
    | cons u rest ih =>
      show (if findingsTruthy (scan_unit u).findings then
              scan_unit u :: scan_rule_array rest
            else scan_rule_array rest) = _
      rw [List.map_cons, List.filter_cons, hbridge u, ih]
  intro us
  refine ⟨hfilter us, ?_⟩
  intro r hr
  rw [hfilter us] at hr
  exact of_decide_eq_true (List.mem_filter.mp hr).2

/-- Witness for C4: a flagged unit that appears in a batch output has a
nonempty findings list. -/
theorem c4_batch_filtering_witness :
    (scan_unit c4flagged).findings.getD [] ≠ [] :=
  (c4_batch_filtering [c4clean, c4flagged]).2 (scan_unit c4flagged) (by decide)

/-- Claim C5: every finding's snippet equals the full line(s) of the unit
text containing the matched statement — from the character after the nearest
preceding newline (or text start) to the nearest following newline (or text
end) — with each newline replaced by the two characters backslash-n. -/
theorem c5_snippet_fidelity :
    ∀ (u : CodeUnit) (f : Finding), f ∈ (scan_unit u).findings.getD [] →
      ∃ p l, (p, l) ∈ findStmts (u.code.getD []) ∧
        p + l ≤ (u.code.getD []).length ∧
        f.snippet = escapeNL (lineOfSpan (u.code.getD []) p (p + l)) := by
  intro u f h
  obtain ⟨p, l, raw, h1, h2, h3, rfl⟩ := mem_scan_unit_findings h
  have hb : p + l ≤ (u.code.getD []).length := by
    simpa using findStmts_bounds h1
  have hs : p ≤ (u.code.getD []).length := le_trans (Nat.le_add_right p l) hb
  refine ⟨p, l, h1, hb, ?_⟩
  simp only [mkFinding]
  rw [get_line_snippet_eq_lineOfSpan hs hb]

/-- Witness for C5 at the two-line statement of the C1 scenario unit. -/
theorem c5_snippet_fidelity_witness :
    ∃ p l, (p, l) ∈ findStmts (c1unit.code.getD []) ∧
      p + l ≤ (c1unit.code.getD []).length ∧
      (headFinding c1unit).snippet =
        escapeNL (lineOfSpan (c1unit.code.getD []) p (p + l)) :=
  c5_snippet_fidelity c1unit (headFinding c1unit) (by decide)

/-- Claim C6: scan-one is total and yields a valid zero-finding result on
empty code, on code in which no call statement is recognized (including an
invocation keyword never followed by a terminator), and on code whose
recognized call statements name no denylisted routine. -/
theorem c6_zero_finding_totality :
    ∀ u : CodeUnit,
      (u.code.getD [] = [] → (scan_unit u).findings = some []) ∧
      (findStmts (u.code.getD []) = [] → (scan_unit u).findings = some []) ∧
      ((∀ pl ∈ findStmts (u.code.getD []),
          (fnNameSearch (((u.code.getD []).drop pl.1).take pl.2)).all
            (fun raw => decide (raw.map toUpperChar ∉ OBSOLETE_FMS)) = true) →
        (scan_unit u).findings = some []) := by
  intro u
  refine ⟨?_, ?_, ?_⟩
  · intro h
    rw [scan_unit_findings, h]
    rfl
  · intro h
    rw [scan_unit_findings, h]
    rfl
  · intro h
    rw [scan_unit_findings]
    congr 1
    rw [List.filterMap_eq_nil_iff]
    intro pl hpl
    have hz := h pl hpl
    simp only [scanMatch]
    split
    · rfl
    · rename_i raw hn
      rw [hn] at hz
      simp only [Option.all_some] at hz
      rw [if_neg (of_decide_eq_true hz)]

/-- Witness for C6 on four concrete units: empty code, no call statement,
unterminated statement, non-denylisted callee. -/
theorem c6_zero_finding_totality_witness :
    (scan_unit c6empty).findings = some [] ∧
    (scan_unit c6noCall).findings = some [] ∧
    (scan_unit c6unterminated).findings = some [] ∧
    (scan_unit c6nonObsolete).findings = some [] :=
  ⟨(c6_zero_finding_totality c6empty).1 (by decide),
   (c6_zero_finding_totality c6noCall).2.1 (by decide),
   (c6_zero_finding_totality c6unterminated).2.1 (by decide),
   (c6_zero_finding_totality c6nonObsolete).2.2 (by decide)⟩

/-- Claim C7: every finding's suggestion is chosen by whether the uppercased
matched identifier contains the substring UPLOAD — the static upload
template (naming GUI_UPLOAD) if so, else the static download template
(naming GUI_DOWNLOAD). -/
theorem c7_suggestion_selection :
    (∀ (u : CodeUnit) (f : Finding), f ∈ (scan_unit u).findings.getD [] →
      ∃ fm, fm ∈ OBSOLETE_FMS ∧ f.message = mkMessage fm ∧
        f.suggestion =
          (if containsSub "UPLOAD".toList fm then SUG_UPLOAD else SUG_DOWNLOAD)) ∧
    containsSub "GUI_UPLOAD".toList SUG_UPLOAD = true ∧
    containsSub "GUI_DOWNLOAD".toList SUG_DOWNLOAD = true := by
  refine ⟨?_, by decide, by decide⟩
  intro u f h
  obtain ⟨p, l, raw, h1, h2, h3, rfl⟩ := mem_scan_unit_findings h
  exact ⟨raw.map toUpperChar, h3, rfl, rfl⟩

/-- Witness for C7 at the C1 scenario unit. -/
theorem c7_suggestion_selection_witness :
    ∃ fm, fm ∈ OBSOLETE_FMS ∧ (headFinding c1unit).message = mkMessage fm ∧
      (headFinding c1unit).suggestion =
        (if containsSub "UPLOAD".toList fm then SUG_UPLOAD else SUG_DOWNLOAD) :=
  c7_suggestion_selection.1 c1unit (headFinding c1unit) (by decide)

/-- Claim C8: the findings list equals the statement matches processed in
textual order — it is the projection of a position-tagged list whose
positions are strictly increasing. -/
theorem c8_order_preservation :
    ∀ u : CodeUnit,
      (scan_unit u).findings = some ((taggedFindings u).map Prod.snd) ∧
      (taggedFindings u).Pairwise (fun a b => a.1 < b.1) := by
  intro u
  constructor
  · rw [scan_unit_findings]
    unfold taggedFindings
    rw [List.map_filterMap]
    refine congrArg some (List.filterMap_congr ?_)
    intro pl _
    cases scanMatch u (u.code.getD []) (u.start_line.getD 0) pl <;> rfl
  · unfold taggedFindings
    refine pairwise_filterMap_of _ ?_ (findStmts_pairwise _)
    intro a b x y hga hgb hR
    cases ha : scanMatch u (u.code.getD []) (u.start_line.getD 0) a with
    | none => rw [ha] at hga; simp at hga
    | some fa =>
      rw [ha] at hga
      cases hb2 : scanMatch u (u.code.getD []) (u.start_line.getD 0) b with
      | none => rw [hb2] at hgb; simp at hgb
      | some fb =>
        rw [hb2] at hgb
        simp only [Option.map_some', Option.some.injEq] at hga hgb
        rw [← hga, ← hgb]
        simpa using hR

/-- Claim C9: scan-one returns a derived copy whose fields other than
findings all equal the input's fields (the embedding is a pure function, so
the caller's input value is never mutated). -/
theorem c9_no_mutation :
    ∀ u : CodeUnit,
      (scan_unit u).pgm_name = u.pgm_name ∧
      (scan_unit u).inc_name = u.inc_name ∧
      (scan_unit u).type = u.type ∧
      (scan_unit u).name = u.name ∧
      (scan_unit u).start_line = u.start_line ∧
      (scan_unit u).end_line = u.end_line ∧
      (scan_unit u).code = u.code :=
  fun _ => ⟨rfl, rfl, rfl, rfl, rfl, rfl, rfl⟩

/-- Claim C10: quotes around the routine name are independently optional —
an unclosed opening quote, a single quote paired with a double quote, and a
closing quote alone all still yield the finding for the denylisted name. -/
theorem c10_unmatched_quotes :
    ((scan_unit c10unclosed).findings.getD []).map Finding.message =
      [mkMessage "WS_UPLOAD".toList] ∧
    ((scan_unit c10mismatched).findings.getD []).map Finding.message =
      [mkMessage "WS_DOWNLOAD".toList] ∧
    ((scan_unit c10closingOnly).findings.getD []).map Finding.message =
      [mkMessage "WS_UPLOAD".toList] := by
  decide

end Rule142
